import Mathlib

/-!
Verification of the per-prefix statistics engine of src/stats.c.

The module keeps one accumulator per key prefix (the bytes before the first
occurrence of the configured delimiter) in a fixed 256-bucket hash table,
plus a shared wildcard accumulator for keys without a delimiter.  Record
operations update counters; a time-weighted flush folds elapsed coarse time
into a byte-seconds integral; a dump serializes everything into a text
report whose buffer size is bounded in advance.

Machine integers are modelled as Nat with explicit reduction: uint64_t
fields reduce modulo 2^64, uint32_t fields (num_items, rel_time_t) modulo
2^32.  Keys and prefixes are lists of characters.  The keyed hash function
lives in assoc.c (not part of src/) and is passed as an explicit function
parameter; the configured delimiter (settings.prefix_delimiter) is likewise
a parameter.  Allocation success (pool_calloc / pool_malloc / malloc) is
modelled by explicit Boolean inputs.
-/

/-- struct _prefix_stats of src/stats.c.  pfx models the owned prefix
bytes (field name prefix in C); prefix_len is pfx.length, since the C code
always stores exactly the copied byte count there.  The next pointer is
replaced by the bucket chain list. -/
structure PREFIX_STATS where
  pfx : List Char
  num_items : Nat
  last_update : Nat
  num_gets : Nat
  num_hits : Nat
  num_sets : Nat
  num_deletes : Nat
  num_evicts : Nat
  num_overwrites : Nat
  num_expires : Nat
  num_bytes : Nat
  bytes_txed : Nat
  total_byte_seconds : Nat
deriving DecidableEq, Repr

/-- A zeroed accumulator, as produced by pool_calloc or memset 0. -/
def zeroStats : PREFIX_STATS :=
  { pfx := [], num_items := 0, last_update := 0, num_gets := 0, num_hits := 0,
    num_sets := 0, num_deletes := 0, num_evicts := 0, num_overwrites := 0,
    num_expires := 0, num_bytes := 0, bytes_txed := 0, total_byte_seconds := 0 }

instance : Inhabited PREFIX_STATS := ⟨zeroStats⟩

def PREFIX_HASH_SIZE : Nat := 256

/-- The module state: the static table prefix_stats[PREFIX_HASH_SIZE]
(each bucket an insertion-ordered chain, head first), the metadata counters
num_prefixes and total_prefix_size, and the wildcard accumulator. -/
structure StatsState where
  table : List (List PREFIX_STATS)
  num_prefixes : Nat
  total_prefix_size : Nat
  wildcard : PREFIX_STATS
deriving DecidableEq, Repr

/-- stats_prefix_init: zeroed table and wildcard. -/
def stats_prefix_init : StatsState :=
  { table := List.replicate PREFIX_HASH_SIZE [],
    num_prefixes := 0, total_prefix_size := 0, wildcard := zeroStats }

/-- stats_prefix_clear: frees every accumulator in every bucket, resets the
metadata to zero and zeroes the wildcard in place; the resulting state is
the initial state. -/
def stats_prefix_clear (_s : StatsState) : StatsState :=
  { table := List.replicate PREFIX_HASH_SIZE [],
    num_prefixes := 0, total_prefix_size := 0, wildcard := zeroStats }

/-- The delimiter-scan loop of stats_prefix_find: the index of the first
occurrence of delim in key, or key.length when absent. -/
def findDelim (delim : Char) : List Char → Nat
  | [] => 0
  | c :: rest => if c = delim then 0 else findDelim delim rest + 1

/-- The candidate prefix of a key: its bytes before the first delimiter. -/
def prefixOf (delim : Char) (key : List Char) : List Char :=
  key.take (findDelim delim key)

/-- Identity of the accumulator resolved by stats_prefix_find: either the
shared wildcard, or the entry at chain position i of bucket b. -/
inductive AccRef where
  | wildcard : AccRef
  | entry (b : Nat) (i : Nat) : AccRef
deriving DecidableEq, Repr

/-- The bucket-chain scan of stats_prefix_find: first entry whose stored
prefix_len equals the candidate length and whose bytes memcmp-match, as a
chain index. -/
def chainFindIdx (p : List Char) : List PREFIX_STATS → Nat → Option Nat
  | [], _ => none
  | e :: rest, i =>
    if p.length = e.pfx.length ∧ e.pfx.take p.length = p then some i
    else chainFindIdx p rest (i + 1)

/-- The delimiter-found path of stats_prefix_find, acting on the candidate
prefix p (the key bytes before the first delimiter; the variable length of
the source equals p.length here): hash the prefix, reduce modulo the bucket
count, scan the chain for an exact match, and otherwise allocate a zeroed
accumulator with a copy of the prefix at the chain head, bumping the
registry metadata.  allocStats / allocPfx model the success of the two pool
allocations (accumulator, prefix copy); when either fails nothing is
modified and no accumulator is returned. -/
def findBody (hash : List Char → Nat) (s : StatsState) (p : List Char)
    (allocStats allocPfx : Bool) : StatsState × Option AccRef :=
  let hashval := hash p % PREFIX_HASH_SIZE
  let chain := s.table.getD hashval []
  match chainFindIdx p chain 0 with
  | some i => (s, some (AccRef.entry hashval i))
  | none =>
    if allocStats && allocPfx then
      let pfs : PREFIX_STATS := { zeroStats with pfx := p }
      ({ s with table := s.table.set hashval (pfs :: chain),
                num_prefixes := s.num_prefixes + 1,
                total_prefix_size := s.total_prefix_size + p.length },
       some (AccRef.entry hashval 0))
    else (s, none)

/-- stats_prefix_find.  hash models the external keyed hash of assoc.c
(seed 0).  Returns the updated state and the resolved accumulator, or none
when allocation fails. -/
def stats_prefix_find (hash : List Char → Nat) (delim : Char) (s : StatsState)
    (key : List Char) (allocStats allocPfx : Bool) : StatsState × Option AccRef :=
  let length := findDelim delim key
  if length = key.length then (s, some AccRef.wildcard)
  else findBody hash s (key.take length) allocStats allocPfx

/-- Read the accumulator a reference denotes. -/
def getEntry (s : StatsState) : AccRef → PREFIX_STATS
  | AccRef.wildcard => s.wildcard
  | AccRef.entry b i => (s.table.getD b []).getD i zeroStats

/-- Apply an in-place update through a reference (pointer write in C). -/
def setEntry (s : StatsState) (r : AccRef) (f : PREFIX_STATS → PREFIX_STATS) : StatsState :=
  match r with
  | AccRef.wildcard => { s with wildcard := f s.wildcard }
  | AccRef.entry b i =>
    { s with table := s.table.set b ((s.table.getD b []).set i (f ((s.table.getD b []).getD i zeroStats))) }

/-- A reference that denotes an actual slot of the state. -/
def validRef (s : StatsState) : AccRef → Prop
  | AccRef.wildcard => True
  | AccRef.entry b i => b < s.table.length ∧ i < (s.table.getD b []).length

instance (s : StatsState) (r : AccRef) : Decidable (validRef s r) := by
  cases r with
  | wildcard => exact isTrue trivial
  | entry b i => exact instDecidableAnd

/-- The guarded time-weighted flush of record_byte_total_change and
record_removal: if now differs from last_update, fold
num_bytes * (now - last_update) into total_byte_seconds (rel_time_t
subtraction modulo 2^32, accumulation modulo 2^64) and advance
last_update. -/
def timeFlush (now : Nat) (p : PREFIX_STATS) : PREFIX_STATS :=
  if now ≠ p.last_update then
    let tbs := (p.total_byte_seconds + p.num_bytes * ((now + 2^32 - p.last_update) % 2^32)) % 2^64
    { p with total_byte_seconds := tbs, last_update := now }
  else p

/-- The unguarded flush performed by stats_prefix_dump on every
accumulator before printing it. -/
def dumpFlush (now : Nat) (p : PREFIX_STATS) : PREFIX_STATS :=
  let tbs := (p.total_byte_seconds + p.num_bytes * ((now + 2^32 - p.last_update) % 2^32)) % 2^64
  { p with total_byte_seconds := tbs, last_update := now }

/-- Body of stats_prefix_record_get on the resolved accumulator. -/
def recordGetEntry (nbytes : Nat) (is_hit : Bool) (p : PREFIX_STATS) : PREFIX_STATS :=
  let p1 := { p with num_gets := (p.num_gets + 1) % 2^64 }
  if is_hit then
    { p1 with num_hits := (p1.num_hits + 1) % 2^64,
              bytes_txed := (p1.bytes_txed + nbytes) % 2^64 }
  else p1

/-- Body of stats_prefix_record_delete on the resolved accumulator. -/
def recordDeleteEntry (p : PREFIX_STATS) : PREFIX_STATS :=
  { p with num_deletes := (p.num_deletes + 1) % 2^64 }

/-- Body of stats_prefix_record_set on the resolved accumulator; the item
count is deliberately not incremented because the set may yet fail. -/
def recordSetEntry (p : PREFIX_STATS) : PREFIX_STATS :=
  { p with num_sets := (p.num_sets + 1) % 2^64 }

/-- Body of stats_prefix_record_byte_total_change on the resolved
accumulator.  bytes is the C long delta (signed); the flag bits
PREFIX_INCR_ITEM_COUNT and PREFIX_IS_OVERWRITE (declared in memcached.h,
not part of src/) are modelled as the Booleans the spec names
incr_item_count and is_overwrite. -/
def byteTotalChangeEntry (now : Nat) (bytes : Int) (incr_item is_overwrite : Bool)
    (p : PREFIX_STATS) : PREFIX_STATS :=
  let p1 := timeFlush now p
  let p2 := { p1 with num_bytes := (((p1.num_bytes : Int) + bytes) % (2^64 : Int)).toNat }
  let p3 := if incr_item then { p2 with num_items := (p2.num_items + 1) % 2^32 } else p2
  if is_overwrite then { p3 with num_overwrites := (p3.num_overwrites + 1) % 2^64 } else p3

/-- The removal-reason step of stats_prefix_record_removal.  The flag bits
UNLINK_IS_EVICT and UNLINK_IS_EXPIRED (declared outside src/) are modelled
as the Booleans the spec names is_evict and is_expired; evict takes
precedence, matching the else-if of the source. -/
def removalFlagsEntry (is_evict is_expired : Bool) (p : PREFIX_STATS) : PREFIX_STATS :=
  if is_evict then { p with num_evicts := (p.num_evicts + 1) % 2^64 }
  else if is_expired then { p with num_expires := (p.num_expires + 1) % 2^64 }
  else p

/-- Body of stats_prefix_record_removal on the resolved accumulator:
reason counter, then time flush, then the byte-total decrement
(num_bytes -= bytes on uint64_t) and the item-count decrement
(num_items-- on uint32_t), both as wrapping unsigned subtraction written
via integer subtraction reduced into the unsigned range; the two final
assignments touch independent fields and are written as one update of the
flushed record. -/
def removalEntry (now : Nat) (bytes : Nat) (is_evict is_expired : Bool)
    (p : PREFIX_STATS) : PREFIX_STATS :=
  { timeFlush now (removalFlagsEntry is_evict is_expired p) with
    num_bytes := ((((timeFlush now (removalFlagsEntry is_evict is_expired p)).num_bytes : Int)
      - (bytes : Int)) % (2^64 : Int)).toNat,
    num_items := ((((timeFlush now (removalFlagsEntry is_evict is_expired p)).num_items : Int)
      - 1) % (2^32 : Int)).toNat }

/-- stats_prefix_record_get. -/
def stats_prefix_record_get (hash : List Char → Nat) (delim : Char) (s : StatsState)
    (key : List Char) (nbytes : Nat) (is_hit : Bool) (a1 a2 : Bool) : StatsState :=
  match stats_prefix_find hash delim s key a1 a2 with
  | (s1, some r) => setEntry s1 r (recordGetEntry nbytes is_hit)
  | (s1, none) => s1

/-- stats_prefix_record_delete. -/
def stats_prefix_record_delete (hash : List Char → Nat) (delim : Char) (s : StatsState)
    (key : List Char) (a1 a2 : Bool) : StatsState :=
  match stats_prefix_find hash delim s key a1 a2 with
  | (s1, some r) => setEntry s1 r recordDeleteEntry
  | (s1, none) => s1

/-- stats_prefix_record_set. -/
def stats_prefix_record_set (hash : List Char → Nat) (delim : Char) (s : StatsState)
    (key : List Char) (a1 a2 : Bool) : StatsState :=
  match stats_prefix_find hash delim s key a1 a2 with
  | (s1, some r) => setEntry s1 r recordSetEntry
  | (s1, none) => s1

/-- stats_prefix_record_byte_total_change; now models the external coarse
clock current_time. -/
def stats_prefix_record_byte_total_change (hash : List Char → Nat) (delim : Char)
    (now : Nat) (s : StatsState) (key : List Char) (bytes : Int)
    (incr_item is_overwrite : Bool) (a1 a2 : Bool) : StatsState :=
  match stats_prefix_find hash delim s key a1 a2 with
  | (s1, some r) => setEntry s1 r (byteTotalChangeEntry now bytes incr_item is_overwrite)
  | (s1, none) => s1

/-- stats_prefix_record_removal; the rel_time_t time argument of the C
function is accepted but unused, exactly as in the source body. -/
def stats_prefix_record_removal (hash : List Char → Nat) (delim : Char)
    (now : Nat) (s : StatsState) (key : List Char) (bytes : Nat) (_time : Nat)
    (is_evict is_expired : Bool) (a1 a2 : Bool) : StatsState :=
  match stats_prefix_find hash delim s key a1 a2 with
  | (s1, some r) => setEntry s1 r (removalEntry now bytes is_evict is_expired)
  | (s1, none) => s1

/-- Fuel-driven decimal digit list (most significant first); fuel at least
n + 1 guarantees completion. -/
def natDigitsAux : Nat → Nat → List Char
  | 0, _ => []
  | fuel + 1, n =>
    if n < 10 then [Char.ofNat (48 + n)]
    else natDigitsAux fuel (n / 10) ++ [Char.ofNat (48 + n % 10)]

/-- Decimal rendering of an unsigned value, modelling the printf %u / %llu
conversions (libc, not part of src/): plain decimal digits, no sign, no
padding. -/
def natDecimal (n : Nat) : String :=
  String.mk (natDigitsAux (n + 1) n)

/-- One output line of STATS_PREFIX_DUMP_FORMAT with a given name and the
accumulator's counters substituted. -/
def dumpLine (name : List Char) (p : PREFIX_STATS) : String :=
  "PREFIX " ++ String.mk name ++ " item " ++ natDecimal p.num_items
    ++ " get " ++ natDecimal p.num_gets ++ " hit " ++ natDecimal p.num_hits
    ++ " set " ++ natDecimal p.num_sets ++ " del " ++ natDecimal p.num_deletes
    ++ " evict " ++ natDecimal p.num_evicts ++ " ov " ++ natDecimal p.num_overwrites
    ++ " exp " ++ natDecimal p.num_expires ++ " bytes " ++ natDecimal p.num_bytes
    ++ " txed " ++ natDecimal p.bytes_txed ++ " byte-seconds " ++ natDecimal p.total_byte_seconds
    ++ "\r\n"

/-- Concatenation of output fragments (the successive append_to_buffer
calls of the dump). -/
def joinOut : List String → String
  | [] => ""
  | x :: rest => x ++ joinOut rest

/-- The format template of stats_prefix_dump with the two-character 64-bit
printf length modifier (PRINTF_INT64_MODIFIER of generic.h, not part of
src/, modelled as the common ll). -/
def STATS_PREFIX_DUMP_FORMAT : String :=
  "PREFIX %.*s item %u get %llu hit %llu set %llu del %llu evict %llu ov %llu exp %llu bytes %llu txed %llu byte-seconds %llu\r\n"

/-- format_len of stats_prefix_dump: the width of one %llu conversion. -/
def format_len : Nat := 4

/-- The buffer size stats_prefix_dump computes before writing: total
prefix bytes, plus per accumulator (and one more for the wildcard) the
template length with all 11 numeric conversions widened to 20 digits, plus
sizeof of the wildcard name and of the terminator. -/
def dumpSize (s : StatsState) : Nat :=
  s.total_prefix_size
    + (s.num_prefixes + 1) * (STATS_PREFIX_DUMP_FORMAT.length + 11 * (20 - format_len))
    + 11 + 6

/-- stats_prefix_dump.  allocOk models the success of the single malloc;
on failure nothing is written and the state is untouched.  Otherwise every
chained accumulator is flushed and printed in table order then chain order,
the wildcard is flushed and printed only when one of its get / set / delete
counters is nonzero, and the terminator closes the report.  Returns the
buffer with its exact written length, and the post-flush state. -/
def stats_prefix_dump (now : Nat) (s : StatsState) (allocOk : Bool) :
    Option (String × Nat) × StatsState :=
  if allocOk then
    let table1 := s.table.map (fun chain => chain.map (dumpFlush now))
    let body := joinOut (table1.map (fun chain => joinOut (chain.map (fun p => dumpLine p.pfx p))))
    let w := dumpFlush now s.wildcard
    let wLine :=
      if w.num_gets ≠ 0 ∨ w.num_sets ≠ 0 ∨ w.num_deletes ≠ 0 then
        dumpLine ("*wildcard*".data) w
      else ""
    let out := body ++ wLine ++ "END\r\n"
    (some (out, out.length), { s with table := table1, wildcard := w })
  else (none, s)

/-- Number of accumulators chained across all buckets. -/
def tableCount (s : StatsState) : Nat :=
  (s.table.map List.length).sum

/-- Sum of the stored prefix lengths across all buckets. -/
def tableSize (s : StatsState) : Nat :=
  (s.table.map (fun chain => (chain.map (fun p => p.pfx.length)).sum)).sum

/-- The registry bookkeeping invariant: the table has its fixed bucket
count, num_prefixes counts the chained accumulators and total_prefix_size
sums their stored prefix lengths. -/
def RegistryInv (s : StatsState) : Prop :=
  s.table.length = PREFIX_HASH_SIZE
    ∧ s.num_prefixes = tableCount s
    ∧ s.total_prefix_size = tableSize s

instance (s : StatsState) : Decidable (RegistryInv s) := by
  unfold RegistryInv; infer_instance

/-- Field bounds of one accumulator: num_items fits in 32 bits, the wide
counters in 64 bits. -/
def entryBounded (p : PREFIX_STATS) : Prop :=
  p.num_items < 2^32 ∧ p.num_gets < 2^64 ∧ p.num_hits < 2^64 ∧ p.num_sets < 2^64
    ∧ p.num_deletes < 2^64 ∧ p.num_evicts < 2^64 ∧ p.num_overwrites < 2^64
    ∧ p.num_expires < 2^64 ∧ p.num_bytes < 2^64 ∧ p.bytes_txed < 2^64
    ∧ p.total_byte_seconds < 2^64

instance (p : PREFIX_STATS) : Decidable (entryBounded p) := by
  unfold entryBounded; infer_instance

/-- Field bounds over the whole state. -/
def boundedState (s : StatsState) : Prop :=
  (∀ chain ∈ s.table, ∀ p ∈ chain, entryBounded p) ∧ entryBounded s.wildcard

instance (s : StatsState) : Decidable (boundedState s) := by
  unfold boundedState; infer_instance

theorem strMk_length (l : List Char) : (String.mk l).length = l.length := rfl

theorem strAppend_empty (s : String) : s ++ "" = s := by
  cases s with
  | mk l => apply congrArg String.mk; exact List.append_nil l

theorem strEmpty_append (s : String) : "" ++ s = s := by
  cases s with
  | mk l => rfl

theorem natDigitsAux_len : ∀ (fuel n k : Nat), n < fuel → n < 10 ^ k → 0 < k →
    (natDigitsAux fuel n).length ≤ k := by
  intro fuel
  induction fuel with
  | zero => intro n k h; omega
  | succ fuel ih =>
    intro n k hfuel hpow hk
    unfold natDigitsAux
    by_cases h10 : n < 10
    · simp [h10]; omega
    · simp [h10]
      have hk2 : 2 ≤ k := by
        rcases k with _ | k
        · omega
        · rcases k with _ | k
          · norm_num at hpow; omega
          · omega
      have hdiv : n / 10 < fuel := by
        have := Nat.div_lt_self (show 0 < n by omega) (show 1 < 10 by omega)
        omega
      have hdivpow : n / 10 < 10 ^ (k - 1) := by
        rw [Nat.div_lt_iff_lt_mul (show 0 < 10 by omega)]
        have hp : 10 ^ (k - 1) * 10 = 10 ^ k := by
          conv_rhs => rw [show k = (k - 1) + 1 by omega]
          rw [pow_succ]
        omega
      have := ih (n / 10) (k - 1) hdiv hdivpow (by omega)
      omega

theorem natDecimal_len (n k : Nat) (hpow : n < 10 ^ k) (hk : 0 < k) :
    (natDecimal n).length ≤ k := by
  unfold natDecimal
  rw [strMk_length]
  exact natDigitsAux_len (n + 1) n k (Nat.lt_succ_self n) hpow hk

theorem joinOut_len : ∀ l : List String, (joinOut l).length = (l.map String.length).sum := by
  intro l
  induction l with
  | nil => rfl
  | cons x rest ih => simp [joinOut, String.length_append, ih]

theorem getD_replicate : ∀ (n i : Nat) (a : α), (List.replicate n a).getD i a = a := by
  intro n
  induction n with
  | zero => intro i a; simp [List.replicate]
  | succ n ih =>
    intro i a
    rw [List.replicate_succ]
    cases i with
    | zero => rfl
    | succ i => exact ih i a

theorem joinOut_map_replicate (n : Nat) (g : List α → String) (hg : g [] = "") :
    joinOut ((List.replicate n ([] : List α)).map g) = "" := by
  induction n with
  | zero => rfl
  | succ n ih =>
    rw [List.replicate_succ, List.map_cons]
    show g [] ++ joinOut ((List.replicate n ([] : List α)).map g) = ""
    rw [hg, ih]
    rfl

theorem joinOut_map_set_replicate :
    ∀ (n b : Nat) (l : List α) (g : List α → String), b < n → g [] = "" →
    joinOut (((List.replicate n ([] : List α)).set b l).map g) = g l := by
  intro n
  induction n with
  | zero => intro b l g h; omega
  | succ n ih =>
    intro b l g hb hg
    rw [List.replicate_succ]
    cases b with
    | zero =>
      show g l ++ joinOut ((List.replicate n ([] : List α)).map g) = g l
      rw [joinOut_map_replicate n g hg]
      exact strAppend_empty _
    | succ b =>
      show g [] ++ joinOut (((List.replicate n ([] : List α)).set b l).map g) = g l
      rw [hg, ih b l g (by omega) hg]
      exact strEmpty_append _

theorem sum_map_set_delta {α : Type} (f : α → Nat) (d : α) :
    ∀ (l : List α) (b : Nat) (x : α), b < l.length →
    ((l.set b x).map f).sum + f (l.getD b d) = (l.map f).sum + f x := by
  intro l
  induction l with
  | nil => intro b x h; simp at h
  | cons c rest ih =>
    intro b x h
    cases b with
    | zero => simp [List.set, List.getD]; omega
    | succ b =>
      have := ih b x (by simpa using h)
      simp only [List.set, List.map_cons, List.sum_cons, List.getD_cons_succ]
      omega

theorem getD_set_self {α : Type} (d : α) (l : List α) (b : Nat) (x : α) (h : b < l.length) :
    (l.set b x).getD b d = x := by
  rw [List.getD_eq_getElem _ _ (by simpa using h)]
  exact List.getElem_set_self _

theorem getD_map {α β : Type} (f : α → β) (d : β) (d2 : α) (l : List α) (i : Nat)
    (h : i < l.length) : (l.map f).getD i d = f (l.getD i d2) := by
  rw [List.getD_eq_getElem _ _ (by simpa using h), List.getD_eq_getElem _ _ h]
  exact List.getElem_map f

theorem chainFindIdx_spec : ∀ (p : List Char) (chain : List PREFIX_STATS) (j i : Nat),
    chainFindIdx p chain j = some i →
    j ≤ i ∧ i - j < chain.length ∧ (chain.getD (i - j) zeroStats).pfx = p := by
  intro p chain
  induction chain with
  | nil => intro j i h; simp [chainFindIdx] at h
  | cons e rest ih =>
    intro j i h
    unfold chainFindIdx at h
    split at h
    · next hc =>
      injection h with h
      subst h
      refine ⟨Nat.le_refl _, by simp, ?_⟩
      simp only [Nat.sub_self, List.getD_cons_zero]
      have := hc.2
      rw [hc.1, List.take_length] at this
      exact this
    · obtain ⟨h1, h2, h3⟩ := ih (j + 1) i h
      refine ⟨by omega, by simp; omega, ?_⟩
      rw [show i - j = (i - (j + 1)) + 1 by omega, List.getD_cons_succ]
      exact h3

theorem chainFindIdx_zero_spec (p : List Char) (chain : List PREFIX_STATS) (i : Nat)
    (h : chainFindIdx p chain 0 = some i) :
    i < chain.length ∧ (chain.getD i zeroStats).pfx = p := by
  obtain ⟨_, h2, h3⟩ := chainFindIdx_spec p chain 0 i h
  simpa using And.intro h2 h3


/-- The state after findBody inserts a fresh zeroed accumulator carrying a
copy of the prefix at the head of its hash bucket. -/
def createdState (hash : List Char → Nat) (s : StatsState) (p : List Char) : StatsState :=
  { s with
    table := s.table.set (hash p % PREFIX_HASH_SIZE)
      ({ zeroStats with pfx := p } :: s.table.getD (hash p % PREFIX_HASH_SIZE) []),
    num_prefixes := s.num_prefixes + 1,
    total_prefix_size := s.total_prefix_size + p.length }

theorem findBody_eq_found (hash : List Char → Nat) (s : StatsState) (p : List Char)
    (a1 a2 : Bool) (i : Nat)
    (hidx : chainFindIdx p (s.table.getD (hash p % PREFIX_HASH_SIZE) []) 0 = some i) :
    findBody hash s p a1 a2 = (s, some (AccRef.entry (hash p % PREFIX_HASH_SIZE) i)) := by
  simp only [findBody]
  rw [hidx]

theorem findBody_eq_create (hash : List Char → Nat) (s : StatsState) (p : List Char)
    (hidx : chainFindIdx p (s.table.getD (hash p % PREFIX_HASH_SIZE) []) 0 = none) :
    findBody hash s p true true
      = (createdState hash s p, some (AccRef.entry (hash p % PREFIX_HASH_SIZE) 0)) := by
  simp only [findBody]
  rw [hidx]
  rfl

theorem findBody_eq_fail (hash : List Char → Nat) (s : StatsState) (p : List Char)
    (a1 a2 : Bool) (ha : (a1 && a2) = false)
    (hidx : chainFindIdx p (s.table.getD (hash p % PREFIX_HASH_SIZE) []) 0 = none) :
    findBody hash s p a1 a2 = (s, none) := by
  simp only [findBody]
  rw [hidx, ha]
  rfl

theorem findBody_cases (hash : List Char → Nat) (s : StatsState) (p : List Char)
    (a1 a2 : Bool) (s' : StatsState) (r : AccRef)
    (h : findBody hash s p a1 a2 = (s', some r)) :
    (∃ i, chainFindIdx p (s.table.getD (hash p % PREFIX_HASH_SIZE) []) 0 = some i ∧
       s' = s ∧ r = AccRef.entry (hash p % PREFIX_HASH_SIZE) i) ∨
    (chainFindIdx p (s.table.getD (hash p % PREFIX_HASH_SIZE) []) 0 = none ∧
       a1 = true ∧ a2 = true ∧ s' = createdState hash s p ∧
       r = AccRef.entry (hash p % PREFIX_HASH_SIZE) 0) := by
  cases hidx : chainFindIdx p (s.table.getD (hash p % PREFIX_HASH_SIZE) []) 0 with
  | some i =>
    rw [findBody_eq_found hash s p a1 a2 i hidx] at h
    injection h with h1 h2
    injection h2 with h2
    exact Or.inl ⟨i, rfl, h1.symm, h2.symm⟩
  | none =>
    cases ha : (a1 && a2) with
    | true =>
      obtain ⟨ha1, ha2⟩ := Bool.and_eq_true _ _ |>.mp ha
      subst ha1; subst ha2
      rw [findBody_eq_create hash s p hidx] at h
      injection h with h1 h2
      injection h2 with h2
      exact Or.inr ⟨rfl, rfl, rfl, h1.symm, h2.symm⟩
    | false =>
      rw [findBody_eq_fail hash s p a1 a2 ha hidx] at h
      injection h with h1 h2
      exact absurd h2 (by simp)

theorem findBody_none (hash : List Char → Nat) (s : StatsState) (p : List Char)
    (a1 a2 : Bool) (s' : StatsState) (h : findBody hash s p a1 a2 = (s', none)) :
    s' = s := by
  cases hidx : chainFindIdx p (s.table.getD (hash p % PREFIX_HASH_SIZE) []) 0 with
  | some i =>
    rw [findBody_eq_found hash s p a1 a2 i hidx] at h
    injection h with h1 h2
    exact absurd h2 (by simp)
  | none =>
    cases ha : (a1 && a2) with
    | true =>
      obtain ⟨ha1, ha2⟩ := Bool.and_eq_true _ _ |>.mp ha
      subst ha1; subst ha2
      rw [findBody_eq_create hash s p hidx] at h
      injection h with h1 h2
      exact absurd h2 (by simp)
    | false =>
      rw [findBody_eq_fail hash s p a1 a2 ha hidx] at h
      injection h with h1 h2
      exact h1.symm

theorem hashval_lt (hash : List Char → Nat) (p : List Char) (s : StatsState)
    (hlen : s.table.length = PREFIX_HASH_SIZE) :
    hash p % PREFIX_HASH_SIZE < s.table.length := by
  rw [hlen]
  exact Nat.mod_lt _ (by norm_num [PREFIX_HASH_SIZE])

theorem findBody_getEntry (hash : List Char → Nat) (s : StatsState) (p : List Char)
    (a1 a2 : Bool) (s' : StatsState) (r : AccRef)
    (hlen : s.table.length = PREFIX_HASH_SIZE)
    (h : findBody hash s p a1 a2 = (s', some r)) :
    (getEntry s' r).pfx = p ∧ validRef s' r := by
  have hb := hashval_lt hash p s hlen
  rcases findBody_cases hash s p a1 a2 s' r h with ⟨i, hidx, hs, hr⟩ | ⟨_, _, _, hs, hr⟩
  · obtain ⟨hi, hpfx⟩ := chainFindIdx_zero_spec p _ i hidx
    subst hs; subst hr
    exact ⟨hpfx, hb, hi⟩
  · subst hs; subst hr
    have hchain : (createdState hash s p).table.getD (hash p % PREFIX_HASH_SIZE) []
        = { zeroStats with pfx := p } :: s.table.getD (hash p % PREFIX_HASH_SIZE) [] :=
      getD_set_self [] s.table _ _ hb
    constructor
    · show (((createdState hash s p).table.getD (hash p % PREFIX_HASH_SIZE) []).getD 0 zeroStats).pfx = p
      rw [hchain]
      rfl
    · refine ⟨?_, ?_⟩
      · show hash p % PREFIX_HASH_SIZE < (createdState hash s p).table.length
        simpa [createdState] using hb
      · show 0 < ((createdState hash s p).table.getD (hash p % PREFIX_HASH_SIZE) []).length
        rw [hchain]
        simp

theorem findBody_idem (hash : List Char → Nat) (s : StatsState) (p : List Char)
    (a1 a2 : Bool) (s' : StatsState) (r : AccRef)
    (hlen : s.table.length = PREFIX_HASH_SIZE)
    (h : findBody hash s p a1 a2 = (s', some r)) :
    findBody hash s' p a1 a2 = (s', some r) := by
  have hb := hashval_lt hash p s hlen
  rcases findBody_cases hash s p a1 a2 s' r h with ⟨i, hidx, hs, hr⟩ | ⟨_, ha1, ha2, hs, hr⟩
  · subst hs; subst hr
    exact findBody_eq_found hash _ p a1 a2 i hidx
  · subst ha1; subst ha2; subst hs; subst hr
    have hchain : (createdState hash s p).table.getD (hash p % PREFIX_HASH_SIZE) []
        = { zeroStats with pfx := p } :: s.table.getD (hash p % PREFIX_HASH_SIZE) [] :=
      getD_set_self [] s.table _ _ hb
    have hfound : chainFindIdx p ((createdState hash s p).table.getD (hash p % PREFIX_HASH_SIZE) []) 0
        = some 0 := by
      rw [hchain]
      unfold chainFindIdx
      simp [List.take_length]
    exact findBody_eq_found hash (createdState hash s p) p true true 0 hfound

theorem findDelim_le : ∀ (delim : Char) (k : List Char), findDelim delim k ≤ k.length := by
  intro delim k
  induction k with
  | nil => simp [findDelim]
  | cons c rest ih =>
    unfold findDelim
    split
    · simp
    · simpa using ih

theorem findDelim_not_mem (delim : Char) (k : List Char) (h : delim ∉ k) :
    findDelim delim k = k.length := by
  induction k with
  | nil => rfl
  | cons c rest ih =>
    unfold findDelim
    rw [if_neg (fun hc => h (List.mem_cons.mpr (Or.inl hc.symm)))]
    rw [ih (fun hm => h (List.mem_cons_of_mem c hm))]
    rfl

theorem findDelim_lt_of_mem (delim : Char) (k : List Char) (h : delim ∈ k) :
    findDelim delim k < k.length := by
  induction k with
  | nil => simp at h
  | cons c rest ih =>
    unfold findDelim
    split
    · simp
    · next hc =>
      have : delim ∈ rest := by
        rcases List.mem_cons.mp h with h1 | h1
        · exact absurd h1.symm hc
        · exact h1
      simpa using ih this

theorem prefixOf_length (delim : Char) (k : List Char) :
    (prefixOf delim k).length = findDelim delim k := by
  unfold prefixOf
  rw [List.length_take]
  exact Nat.min_eq_left (findDelim_le delim k)

theorem find_eq_body (hash : List Char → Nat) (delim : Char) (s : StatsState)
    (key : List Char) (a1 a2 : Bool) (h : findDelim delim key < key.length) :
    stats_prefix_find hash delim s key a1 a2 = findBody hash s (prefixOf delim key) a1 a2 := by
  unfold stats_prefix_find prefixOf
  rw [if_neg (by omega)]

theorem find_eq_wildcard (hash : List Char → Nat) (delim : Char) (s : StatsState)
    (key : List Char) (a1 a2 : Bool) (h : findDelim delim key = key.length) :
    stats_prefix_find hash delim s key a1 a2 = (s, some AccRef.wildcard) := by
  unfold stats_prefix_find
  rw [if_pos h]

theorem find_none (hash : List Char → Nat) (delim : Char) (s : StatsState)
    (key : List Char) (a1 a2 : Bool) (s' : StatsState)
    (h : stats_prefix_find hash delim s key a1 a2 = (s', none)) : s' = s := by
  by_cases hd : findDelim delim key = key.length
  · rw [find_eq_wildcard hash delim s key a1 a2 hd] at h
    injection h with h1 h2
    exact absurd h2 (by simp)
  · have hlt : findDelim delim key < key.length :=
      Nat.lt_of_le_of_ne (findDelim_le delim key) hd
    rw [find_eq_body hash delim s key a1 a2 hlt] at h
    exact findBody_none hash s _ a1 a2 s' h

theorem getEntry_setEntry (s : StatsState) (r : AccRef) (f : PREFIX_STATS → PREFIX_STATS)
    (hv : validRef s r) : getEntry (setEntry s r f) r = f (getEntry s r) := by
  cases r with
  | wildcard => rfl
  | entry b i =>
    obtain ⟨hb, hi⟩ := hv
    show ((s.table.set b ((s.table.getD b []).set i
        (f ((s.table.getD b []).getD i zeroStats)))).getD b []).getD i zeroStats
      = f ((s.table.getD b []).getD i zeroStats)
    rw [getD_set_self [] s.table b _ hb, getD_set_self zeroStats _ i _ hi]

/-- The state produced by the successful branch of stats_prefix_dump:
every chained accumulator and the wildcard flushed at now. -/
def flushedState (now : Nat) (s : StatsState) : StatsState :=
  { s with table := s.table.map (fun chain => chain.map (dumpFlush now)),
           wildcard := dumpFlush now s.wildcard }

theorem dump_snd (now : Nat) (s : StatsState) :
    (stats_prefix_dump now s true).2 = flushedState now s := rfl

theorem getEntry_flushedState (now : Nat) (s : StatsState) (r : AccRef)
    (hv : validRef s r) :
    getEntry (flushedState now s) r = dumpFlush now (getEntry s r) := by
  cases r with
  | wildcard => rfl
  | entry b i =>
    obtain ⟨hb, hi⟩ := hv
    show ((s.table.map (fun chain => chain.map (dumpFlush now))).getD b []).getD i zeroStats
      = dumpFlush now ((s.table.getD b []).getD i zeroStats)
    rw [getD_map _ [] [] s.table b hb, getD_map _ zeroStats zeroStats _ i hi]

theorem validRef_flushedState (now : Nat) (s : StatsState) (r : AccRef)
    (hv : validRef s r) : validRef (flushedState now s) r := by
  cases r with
  | wildcard => trivial
  | entry b i =>
    obtain ⟨hb, hi⟩ := hv
    refine ⟨by simpa [flushedState] using hb, ?_⟩
    show i < ((s.table.map (fun chain => chain.map (dumpFlush now))).getD b []).length
    rw [getD_map _ [] [] s.table b hb]
    simpa using hi

theorem timeFlush_pfx (now : Nat) (p : PREFIX_STATS) : (timeFlush now p).pfx = p.pfx := by
  unfold timeFlush
  split <;> rfl

theorem dumpFlush_pfx (now : Nat) (p : PREFIX_STATS) : (dumpFlush now p).pfx = p.pfx := rfl

theorem recordGetEntry_pfx (n : Nat) (hit : Bool) (p : PREFIX_STATS) :
    (recordGetEntry n hit p).pfx = p.pfx := by
  unfold recordGetEntry
  cases hit <;> rfl

theorem recordDeleteEntry_pfx (p : PREFIX_STATS) : (recordDeleteEntry p).pfx = p.pfx := rfl

theorem recordSetEntry_pfx (p : PREFIX_STATS) : (recordSetEntry p).pfx = p.pfx := rfl

theorem byteTotalChangeEntry_pfx (now : Nat) (bytes : Int) (i o : Bool) (p : PREFIX_STATS) :
    (byteTotalChangeEntry now bytes i o p).pfx = p.pfx := by
  unfold byteTotalChangeEntry
  cases i <;> cases o <;> simp <;> rw [timeFlush_pfx]

theorem removalFlagsEntry_pfx (e x : Bool) (p : PREFIX_STATS) :
    (removalFlagsEntry e x p).pfx = p.pfx := by
  unfold removalFlagsEntry
  split
  · rfl
  · split <;> rfl

theorem removalEntry_pfx (now : Nat) (bytes : Nat) (e x : Bool) (p : PREFIX_STATS) :
    (removalEntry now bytes e x p).pfx = p.pfx := by
  show (timeFlush now (removalFlagsEntry e x p)).pfx = p.pfx
  rw [timeFlush_pfx]
  exact removalFlagsEntry_pfx e x p

theorem sum_len_set_cons (l : List (List PREFIX_STATS)) (b : Nat) (x : PREFIX_STATS)
    (hb : b < l.length) :
    ((l.set b (x :: l.getD b [])).map List.length).sum = (l.map List.length).sum + 1 := by
  have hd := sum_map_set_delta List.length [] l b (x :: l.getD b []) hb
  simp only [List.length_cons] at hd
  omega

theorem sum_pfx_set_cons (l : List (List PREFIX_STATS)) (b : Nat) (x : PREFIX_STATS)
    (hb : b < l.length) :
    ((l.set b (x :: l.getD b [])).map (fun chain => (chain.map (fun q => q.pfx.length)).sum)).sum
      = (l.map (fun chain => (chain.map (fun q => q.pfx.length)).sum)).sum + x.pfx.length := by
  have hd := sum_map_set_delta (fun chain => (chain.map (fun q => q.pfx.length)).sum) []
    l b (x :: l.getD b []) hb
  simp only [List.map_cons, List.sum_cons] at hd
  omega

theorem sum_len_set_preserve (l : List (List PREFIX_STATS)) (b i : Nat)
    (g : PREFIX_STATS → PREFIX_STATS) (hb : b < l.length) :
    ((l.set b ((l.getD b []).set i (g ((l.getD b []).getD i zeroStats)))).map List.length).sum
      = (l.map List.length).sum := by
  have hd := sum_map_set_delta List.length [] l b
    ((l.getD b []).set i (g ((l.getD b []).getD i zeroStats))) hb
  rw [List.length_set] at hd
  omega

theorem sum_pfx_set_preserve (l : List (List PREFIX_STATS)) (b i : Nat)
    (g : PREFIX_STATS → PREFIX_STATS) (hg : ∀ p, (g p).pfx = p.pfx)
    (hb : b < l.length) (hi : i < (l.getD b []).length) :
    ((l.set b ((l.getD b []).set i (g ((l.getD b []).getD i zeroStats)))).map
        (fun chain => (chain.map (fun q => q.pfx.length)).sum)).sum
      = (l.map (fun chain => (chain.map (fun q => q.pfx.length)).sum)).sum := by
  have hd := sum_map_set_delta (fun chain => (chain.map (fun q => q.pfx.length)).sum) []
    l b ((l.getD b []).set i (g ((l.getD b []).getD i zeroStats))) hb
  have hd2 := sum_map_set_delta (fun q : PREFIX_STATS => q.pfx.length) zeroStats
    (l.getD b []) i (g ((l.getD b []).getD i zeroStats)) hi
  simp only at hd hd2
  rw [hg ((l.getD b []).getD i zeroStats)] at hd2
  omega

theorem RegistryInv_setEntry (s : StatsState) (r : AccRef) (f : PREFIX_STATS → PREFIX_STATS)
    (hpfx : ∀ p, (f p).pfx = p.pfx) (hv : validRef s r) (h : RegistryInv s) :
    RegistryInv (setEntry s r f) := by
  obtain ⟨hlen, hcnt, hsz⟩ := h
  cases r with
  | wildcard => exact ⟨hlen, hcnt, hsz⟩
  | entry b i =>
    obtain ⟨hb, hi⟩ := hv
    refine ⟨?_, ?_, ?_⟩
    · show (s.table.set b _).length = PREFIX_HASH_SIZE
      rw [List.length_set]
      exact hlen
    · show s.num_prefixes = ((s.table.set b ((s.table.getD b []).set i
        (f ((s.table.getD b []).getD i zeroStats)))).map List.length).sum
      rw [sum_len_set_preserve s.table b i f hb]
      exact hcnt
    · show s.total_prefix_size = ((s.table.set b ((s.table.getD b []).set i
        (f ((s.table.getD b []).getD i zeroStats)))).map
          (fun chain => (chain.map (fun q => q.pfx.length)).sum)).sum
      rw [sum_pfx_set_preserve s.table b i f hpfx hb hi]
      exact hsz

theorem RegistryInv_createdState (hash : List Char → Nat) (s : StatsState) (p : List Char)
    (h : RegistryInv s) : RegistryInv (createdState hash s p) := by
  obtain ⟨hlen, hcnt, hsz⟩ := h
  have hb := hashval_lt hash p s hlen
  refine ⟨?_, ?_, ?_⟩
  · show (s.table.set _ _).length = PREFIX_HASH_SIZE
    rw [List.length_set]
    exact hlen
  · show s.num_prefixes + 1 = ((s.table.set (hash p % PREFIX_HASH_SIZE)
      ({ zeroStats with pfx := p } :: s.table.getD (hash p % PREFIX_HASH_SIZE) [])).map
        List.length).sum
    rw [sum_len_set_cons s.table _ _ hb]
    rw [hcnt]
    rfl
  · show s.total_prefix_size + p.length = ((s.table.set (hash p % PREFIX_HASH_SIZE)
      ({ zeroStats with pfx := p } :: s.table.getD (hash p % PREFIX_HASH_SIZE) [])).map
        (fun chain => (chain.map (fun q => q.pfx.length)).sum)).sum
    rw [sum_pfx_set_cons s.table _ _ hb]
    rw [hsz]
    rfl

theorem find_some_inv (hash : List Char → Nat) (delim : Char) (s : StatsState)
    (key : List Char) (a1 a2 : Bool) (s1 : StatsState) (r : AccRef)
    (h : stats_prefix_find hash delim s key a1 a2 = (s1, some r))
    (hinv : RegistryInv s) :
    RegistryInv s1 ∧ validRef s1 r ∧
      (s1 = s ∨ (s1.num_prefixes = s.num_prefixes + 1 ∧
                 s1.total_prefix_size = s.total_prefix_size + (prefixOf delim key).length)) := by
  by_cases hd : findDelim delim key = key.length
  · rw [find_eq_wildcard hash delim s key a1 a2 hd] at h
    injection h with h1 h2
    injection h2 with h2
    subst h1
    exact ⟨hinv, h2 ▸ trivial, Or.inl rfl⟩
  · have hlt : findDelim delim key < key.length :=
      Nat.lt_of_le_of_ne (findDelim_le delim key) hd
    rw [find_eq_body hash delim s key a1 a2 hlt] at h
    have hvalid := (findBody_getEntry hash s _ a1 a2 s1 r hinv.1 h).2
    rcases findBody_cases hash s _ a1 a2 s1 r h with ⟨i, _, hs, _⟩ | ⟨_, _, _, hs, _⟩
    · subst hs
      exact ⟨hinv, hvalid, Or.inl rfl⟩
    · subst hs
      exact ⟨RegistryInv_createdState hash s _ hinv, hvalid, Or.inr ⟨rfl, rfl⟩⟩

theorem RegistryInv_flushedState (now : Nat) (s : StatsState) (h : RegistryInv s) :
    RegistryInv (flushedState now s) := by
  obtain ⟨hlen, hcnt, hsz⟩ := h
  refine ⟨?_, ?_, ?_⟩
  · show (s.table.map _).length = PREFIX_HASH_SIZE
    rw [List.length_map]
    exact hlen
  · show s.num_prefixes = ((s.table.map (fun chain => chain.map (dumpFlush now))).map
      List.length).sum
    rw [List.map_map]
    have he : (List.length ∘ fun chain => chain.map (dumpFlush now))
        = (List.length : List PREFIX_STATS → Nat) := by
      funext chain
      simp
    rw [he]
    exact hcnt
  · show s.total_prefix_size = ((s.table.map (fun chain => chain.map (dumpFlush now))).map
      (fun chain => (chain.map (fun q => q.pfx.length)).sum)).sum
    rw [List.map_map]
    have he : ((fun chain => (chain.map (fun q => q.pfx.length)).sum)
          ∘ fun chain => chain.map (dumpFlush now))
        = fun chain : List PREFIX_STATS => (chain.map (fun q => q.pfx.length)).sum := by
      funext chain
      simp only [Function.comp, List.map_map]
      congr 1
    rw [he]
    exact hsz

theorem RegistryInv_update (hash : List Char → Nat) (delim : Char) (s : StatsState)
    (key : List Char) (a1 a2 : Bool) (f : PREFIX_STATS → PREFIX_STATS)
    (hpfx : ∀ p, (f p).pfx = p.pfx) (hinv : RegistryInv s) :
    RegistryInv (match stats_prefix_find hash delim s key a1 a2 with
      | (s1, some r) => setEntry s1 r f
      | (s1, none) => s1) := by
  rcases hfind : stats_prefix_find hash delim s key a1 a2 with ⟨s1, ro⟩
  cases ro with
  | none =>
    show RegistryInv s1
    rw [find_none hash delim s key a1 a2 s1 hfind]
    exact hinv
  | some r =>
    show RegistryInv (setEntry s1 r f)
    obtain ⟨h1, h2, _⟩ := find_some_inv hash delim s key a1 a2 s1 r hfind hinv
    exact RegistryInv_setEntry s1 r f hpfx h2 h1

theorem timeFlush_num_bytes (now : Nat) (p : PREFIX_STATS) :
    (timeFlush now p).num_bytes = p.num_bytes := by
  unfold timeFlush
  split <;> rfl

theorem timeFlush_num_items (now : Nat) (p : PREFIX_STATS) :
    (timeFlush now p).num_items = p.num_items := by
  unfold timeFlush
  split <;> rfl

theorem timeFlush_spec (now : Nat) (p : PREFIX_STATS)
    (hne : now ≠ p.last_update) (hle : p.last_update ≤ now) (hlt : now < 2^32)
    (hov : p.total_byte_seconds + p.num_bytes * (now - p.last_update) < 2^64) :
    (timeFlush now p).total_byte_seconds
        = p.total_byte_seconds + p.num_bytes * (now - p.last_update)
    ∧ (timeFlush now p).last_update = now := by
  unfold timeFlush
  rw [if_pos hne]
  refine ⟨?_, rfl⟩
  show (p.total_byte_seconds + p.num_bytes * ((now + 2^32 - p.last_update) % 2^32)) % 2^64
      = p.total_byte_seconds + p.num_bytes * (now - p.last_update)
  have h1 : (now + 2^32 - p.last_update) % 2^32 = now - p.last_update := by omega
  rw [h1]
  omega

theorem timeFlush_tbs_eq (now : Nat) (p1 p : PREFIX_STATS)
    (h1 : p1.total_byte_seconds = p.total_byte_seconds)
    (h2 : p1.num_bytes = p.num_bytes) (h3 : p1.last_update = p.last_update) :
    (timeFlush now p1).total_byte_seconds = (timeFlush now p).total_byte_seconds
    ∧ (timeFlush now p1).last_update = (timeFlush now p).last_update := by
  unfold timeFlush
  rw [h1, h2, h3]
  by_cases hc : now ≠ p.last_update
  · rw [if_pos hc, if_pos hc]
    exact ⟨rfl, rfl⟩
  · rw [if_neg hc, if_neg hc]
    exact ⟨h1, h3⟩

theorem byteTotalChangeEntry_tbs_lu (now : Nat) (bytes : Int) (incr ov : Bool)
    (p : PREFIX_STATS) :
    (byteTotalChangeEntry now bytes incr ov p).total_byte_seconds
        = (timeFlush now p).total_byte_seconds
    ∧ (byteTotalChangeEntry now bytes incr ov p).last_update
        = (timeFlush now p).last_update := by
  cases incr <;> cases ov <;> exact ⟨rfl, rfl⟩

theorem removalFlagsEntry_fields (e x : Bool) (p : PREFIX_STATS) :
    (removalFlagsEntry e x p).total_byte_seconds = p.total_byte_seconds
    ∧ (removalFlagsEntry e x p).num_bytes = p.num_bytes
    ∧ (removalFlagsEntry e x p).last_update = p.last_update
    ∧ (removalFlagsEntry e x p).num_items = p.num_items := by
  unfold removalFlagsEntry
  split
  · exact ⟨rfl, rfl, rfl, rfl⟩
  · split <;> exact ⟨rfl, rfl, rfl, rfl⟩

theorem removalEntry_tbs_lu (now : Nat) (bytes : Nat) (ev ex : Bool) (p : PREFIX_STATS) :
    (removalEntry now bytes ev ex p).total_byte_seconds
        = (timeFlush now p).total_byte_seconds
    ∧ (removalEntry now bytes ev ex p).last_update = (timeFlush now p).last_update := by
  obtain ⟨h1, h2, h3, _⟩ := removalFlagsEntry_fields ev ex p
  exact timeFlush_tbs_eq now (removalFlagsEntry ev ex p) p h1 h2 h3

theorem removalEntry_num_bytes (now : Nat) (bytes : Nat) (ev ex : Bool) (p : PREFIX_STATS) :
    (removalEntry now bytes ev ex p).num_bytes
        = (((p.num_bytes : Int) - (bytes : Int)) % (2^64 : Int)).toNat := by
  show ((((timeFlush now (removalFlagsEntry ev ex p)).num_bytes : Int)
      - (bytes : Int)) % (2^64 : Int)).toNat = _
  rw [timeFlush_num_bytes, (removalFlagsEntry_fields ev ex p).2.1]

theorem removalEntry_num_items (now : Nat) (bytes : Nat) (ev ex : Bool) (p : PREFIX_STATS) :
    (removalEntry now bytes ev ex p).num_items
        = ((((p.num_items : Int) - 1) % (2^32 : Int)).toNat) := by
  show ((((timeFlush now (removalFlagsEntry ev ex p)).num_items : Int)
      - 1) % (2^32 : Int)).toNat = _
  rw [timeFlush_num_items, (removalFlagsEntry_fields ev ex p).2.2.2]

/-- Claim C4: a key containing no occurrence of the configured delimiter
byte always resolves to the shared wildcard accumulator, regardless of the
key content and of allocation outcomes, performing no allocation and
returning the registry state completely unchanged. -/
theorem claim_C4 (hash : List Char → Nat) (delim : Char) (s : StatsState)
    (key : List Char) (a1 a2 : Bool) (h : delim ∉ key) :
    stats_prefix_find hash delim s key a1 a2 = (s, some AccRef.wildcard) :=
  find_eq_wildcard hash delim s key a1 a2 (findDelim_not_mem delim key h)

theorem claim_C4_witness :
    (':' ∉ "abc".data) ∧
      stats_prefix_find (fun _ => 0) ':' stats_prefix_init "abc".data true true
        = (stats_prefix_init, some AccRef.wildcard) :=
  ⟨by decide, claim_C4 (fun _ => 0) ':' stats_prefix_init "abc".data true true (by decide)⟩

/-- Claim C7: record_get with a miss increments only the gets counter,
leaving hits and bytes_txed unchanged; with a hit it additionally
increments hits and adds the byte size to bytes_txed; in both variants no
time flush happens, so num_bytes, total_byte_seconds and last_update are
untouched. -/
theorem claim_C7 (nbytes : Nat) (p : PREFIX_STATS)
    (hg : p.num_gets + 1 < 2^64) (hh : p.num_hits + 1 < 2^64)
    (ht : p.bytes_txed + nbytes < 2^64) :
    ((recordGetEntry nbytes false p).num_gets = p.num_gets + 1
      ∧ (recordGetEntry nbytes false p).num_hits = p.num_hits
      ∧ (recordGetEntry nbytes false p).bytes_txed = p.bytes_txed)
    ∧ ((recordGetEntry nbytes true p).num_gets = p.num_gets + 1
      ∧ (recordGetEntry nbytes true p).num_hits = p.num_hits + 1
      ∧ (recordGetEntry nbytes true p).bytes_txed = p.bytes_txed + nbytes)
    ∧ (∀ hit : Bool, (recordGetEntry nbytes hit p).num_bytes = p.num_bytes
      ∧ (recordGetEntry nbytes hit p).total_byte_seconds = p.total_byte_seconds
      ∧ (recordGetEntry nbytes hit p).last_update = p.last_update) := by
  refine ⟨⟨?_, rfl, rfl⟩, ⟨?_, ?_, ?_⟩, ?_⟩
  · show (p.num_gets + 1) % 2^64 = p.num_gets + 1
    omega
  · show (p.num_gets + 1) % 2^64 = p.num_gets + 1
    omega
  · show (p.num_hits + 1) % 2^64 = p.num_hits + 1
    omega
  · show (p.bytes_txed + nbytes) % 2^64 = p.bytes_txed + nbytes
    omega
  · intro hit
    cases hit <;> exact ⟨rfl, rfl, rfl⟩

theorem claim_C7_witness :
    (recordGetEntry 5 true zeroStats).num_gets = zeroStats.num_gets + 1
    ∧ (recordGetEntry 5 true zeroStats).num_hits = zeroStats.num_hits + 1
    ∧ (recordGetEntry 5 true zeroStats).bytes_txed = zeroStats.bytes_txed + 5
    ∧ (recordGetEntry 5 false zeroStats).num_hits = zeroStats.num_hits :=
  ⟨(claim_C7 5 zeroStats (by decide) (by decide) (by decide)).2.1.1,
   (claim_C7 5 zeroStats (by decide) (by decide) (by decide)).2.1.2.1,
   (claim_C7 5 zeroStats (by decide) (by decide) (by decide)).2.1.2.2,
   (claim_C7 5 zeroStats (by decide) (by decide) (by decide)).1.2.1⟩

/-- Claim C10: record_removal subtracts the byte count from the unsigned
64-bit num_bytes and decrements the unsigned 32-bit item count with no
underflow guard: removing more bytes than currently accounted wraps
num_bytes modulo 2^64, and a removal at item count zero wraps the item
count to 2^32 - 1; in the in-range cases both fields decrease normally. -/
theorem claim_C10 (now : Nat) (bytes : Nat) (ev ex : Bool) (p : PREFIX_STATS)
    (hb64 : bytes < 2^64) :
    (p.num_bytes < bytes →
      (removalEntry now bytes ev ex p).num_bytes = p.num_bytes + (2^64 - bytes))
    ∧ (p.num_items = 0 →
      (removalEntry now bytes ev ex p).num_items = 2^32 - 1)
    ∧ (0 < p.num_items → p.num_items < 2^32 →
      (removalEntry now bytes ev ex p).num_items = p.num_items - 1)
    ∧ (bytes ≤ p.num_bytes → p.num_bytes < 2^64 →
      (removalEntry now bytes ev ex p).num_bytes = p.num_bytes - bytes) := by
  have hb := removalEntry_num_bytes now bytes ev ex p
  have hi := removalEntry_num_items now bytes ev ex p
  refine ⟨?_, ?_, ?_, ?_⟩
  · intro h
    rw [hb]
    omega
  · intro h
    rw [hi, h]
    decide
  · intro h1 h2
    rw [hi]
    omega
  · intro h1 h2
    rw [hb]
    omega

theorem claim_C10_witness :
    ({ zeroStats with num_bytes := 3 } : PREFIX_STATS).num_bytes < 5
    ∧ (removalEntry 1 5 false false { zeroStats with num_bytes := 3 }).num_bytes
        = 3 + (2^64 - 5)
    ∧ (removalEntry 1 5 false false { zeroStats with num_bytes := 3 }).num_items
        = 2^32 - 1 :=
  ⟨by decide,
   (claim_C10 1 5 false false { zeroStats with num_bytes := 3 } (by decide)).1 (by decide),
   (claim_C10 1 5 false false { zeroStats with num_bytes := 3 } (by decide)).2.1 (by decide)⟩

/-- Claim C8: when allocation fails inside stats_prefix_find (for the
accumulator or the prefix copy), no accumulator is returned, the state is
unchanged, and every record operation invoked under the same conditions
leaves the whole registry exactly as it was; when the dump buffer
allocation fails, the dump returns no buffer, writes nothing, and leaves
the state unmodified. -/
theorem claim_C8 (hash : List Char → Nat) (delim : Char) (s s2 : StatsState)
    (key : List Char) (a1 a2 : Bool) (nbytes : Nat) (is_hit : Bool) (bytes : Int)
    (incr ov : Bool) (rb tt : Nat) (ev ex : Bool) (now now2 : Nat) (s3 : StatsState)
    (hfind : stats_prefix_find hash delim s key a1 a2 = (s2, none)) :
    s2 = s
    ∧ stats_prefix_record_get hash delim s key nbytes is_hit a1 a2 = s
    ∧ stats_prefix_record_delete hash delim s key a1 a2 = s
    ∧ stats_prefix_record_set hash delim s key a1 a2 = s
    ∧ stats_prefix_record_byte_total_change hash delim now s key bytes incr ov a1 a2 = s
    ∧ stats_prefix_record_removal hash delim now s key rb tt ev ex a1 a2 = s
    ∧ stats_prefix_dump now2 s3 false = (none, s3) := by
  have hs2 : s2 = s := find_none hash delim s key a1 a2 s2 hfind
  refine ⟨hs2, ?_, ?_, ?_, ?_, ?_, rfl⟩
  · unfold stats_prefix_record_get
    rw [hfind]
    exact hs2
  · unfold stats_prefix_record_delete
    rw [hfind]
    exact hs2
  · unfold stats_prefix_record_set
    rw [hfind]
    exact hs2
  · unfold stats_prefix_record_byte_total_change
    rw [hfind]
    exact hs2
  · unfold stats_prefix_record_removal
    rw [hfind]
    exact hs2

set_option maxRecDepth 4000 in
theorem claim_C8_witness :
    stats_prefix_find (fun _ => 0) ':' stats_prefix_init "abc:1".data false true
      = (stats_prefix_init, none)
    ∧ stats_prefix_record_set (fun _ => 0) ':' stats_prefix_init "abc:1".data false true
      = stats_prefix_init
    ∧ stats_prefix_dump 7 stats_prefix_init false = (none, stats_prefix_init) := by
  refine ⟨by decide, ?_, ?_⟩
  · exact (claim_C8 (fun _ => 0) ':' stats_prefix_init stats_prefix_init "abc:1".data
      false true 0 false 0 false false 0 0 false false 7 7 stats_prefix_init
      (by decide)).2.2.2.1
  · exact (claim_C8 (fun _ => 0) ':' stats_prefix_init stats_prefix_init "abc:1".data
      false true 0 false 0 false false 0 0 false false 7 7 stats_prefix_init
      (by decide)).2.2.2.2.2.2

theorem dump_empty (now : Nat) :
    (stats_prefix_dump now stats_prefix_init true).1 = some ("END\r\n", 5) := by
  unfold stats_prefix_dump stats_prefix_init
  rw [if_pos rfl]
  dsimp only
  rw [List.map_map]
  rw [joinOut_map_replicate PREFIX_HASH_SIZE _ rfl]
  simp only [dumpFlush, zeroStats]
  norm_num
  decide

/-- Claim C6: dumping an empty registry (no accumulators, all-zero
wildcard) returns exactly the five-byte terminator line with length 5, and
stats_prefix_clear followed by a dump returns that same empty output for
every prior state, because clear resets the whole registry to the initial
state: empty buckets, zero metadata, zeroed wildcard. -/
theorem claim_C6 (now now2 : Nat) (s : StatsState) :
    (stats_prefix_dump now stats_prefix_init true).1 = some ("END\r\n", 5)
    ∧ (stats_prefix_dump now2 (stats_prefix_clear s) true).1 = some ("END\r\n", 5)
    ∧ stats_prefix_clear s = stats_prefix_init :=
  ⟨dump_empty now, dump_empty now2, rfl⟩

theorem dumpFlush_tbs (now : Nat) (p : PREFIX_STATS)
    (hle : p.last_update ≤ now) (hlt : now < 2^32)
    (hov : p.total_byte_seconds + p.num_bytes * (now - p.last_update) < 2^64) :
    (dumpFlush now p).total_byte_seconds
      = p.total_byte_seconds + p.num_bytes * (now - p.last_update) := by
  show (p.total_byte_seconds + p.num_bytes * ((now + 2^32 - p.last_update) % 2^32)) % 2^64 = _
  have h1 : (now + 2^32 - p.last_update) % 2^32 = now - p.last_update := by omega
  rw [h1]
  omega

/-- Claim C1: in record_byte_total_change and record_removal, whenever the
coarse clock differs from last_update, exactly the previous num_bytes times
the elapsed ticks is added to total_byte_seconds before num_bytes is
changed, and last_update advances to now; consequently two dumps k ticks
apart with no intervening mutation grow every accumulator's
total_byte_seconds by exactly num_bytes * k while num_bytes stays
constant. -/
theorem claim_C1 :
    (∀ (now : Nat) (bytes : Int) (incr ov : Bool) (p : PREFIX_STATS),
      now ≠ p.last_update → p.last_update ≤ now → now < 2^32 →
      p.total_byte_seconds + p.num_bytes * (now - p.last_update) < 2^64 →
      (byteTotalChangeEntry now bytes incr ov p).total_byte_seconds
          = p.total_byte_seconds + p.num_bytes * (now - p.last_update)
        ∧ (byteTotalChangeEntry now bytes incr ov p).last_update = now)
    ∧ (∀ (now : Nat) (bytes : Nat) (ev ex : Bool) (p : PREFIX_STATS),
      now ≠ p.last_update → p.last_update ≤ now → now < 2^32 →
      p.total_byte_seconds + p.num_bytes * (now - p.last_update) < 2^64 →
      (removalEntry now bytes ev ex p).total_byte_seconds
          = p.total_byte_seconds + p.num_bytes * (now - p.last_update)
        ∧ (removalEntry now bytes ev ex p).last_update = now)
    ∧ (∀ (t k : Nat) (s : StatsState) (r : AccRef),
      validRef s r → t + k < 2^32 →
      (getEntry ((stats_prefix_dump t s true).2) r).total_byte_seconds
        + (getEntry ((stats_prefix_dump t s true).2) r).num_bytes * k < 2^64 →
      (getEntry ((stats_prefix_dump (t + k) ((stats_prefix_dump t s true).2) true).2) r).total_byte_seconds
          = (getEntry ((stats_prefix_dump t s true).2) r).total_byte_seconds
            + (getEntry ((stats_prefix_dump t s true).2) r).num_bytes * k
        ∧ (getEntry ((stats_prefix_dump (t + k) ((stats_prefix_dump t s true).2) true).2) r).num_bytes
          = (getEntry ((stats_prefix_dump t s true).2) r).num_bytes) := by
  refine ⟨?_, ?_, ?_⟩
  · intro now bytes incr ov p hne hle hlt hov
    obtain ⟨h1, h2⟩ := byteTotalChangeEntry_tbs_lu now bytes incr ov p
    obtain ⟨h3, h4⟩ := timeFlush_spec now p hne hle hlt hov
    exact ⟨h1.trans h3, h2.trans h4⟩
  · intro now bytes ev ex p hne hle hlt hov
    obtain ⟨h1, h2⟩ := removalEntry_tbs_lu now bytes ev ex p
    obtain ⟨h3, h4⟩ := timeFlush_spec now p hne hle hlt hov
    exact ⟨h1.trans h3, h2.trans h4⟩
  · intro t k s r hv hlt hov
    rw [dump_snd] at hov ⊢
    rw [dump_snd]
    have hv1 : validRef (flushedState t s) r := validRef_flushedState t s r hv
    have h1 : getEntry (flushedState t s) r = dumpFlush t (getEntry s r) :=
      getEntry_flushedState t s r hv
    have h2 : getEntry (flushedState (t + k) (flushedState t s)) r
        = dumpFlush (t + k) (getEntry (flushedState t s) r) :=
      getEntry_flushedState (t + k) (flushedState t s) r hv1
    rw [h1] at hov ⊢
    rw [h2, h1]
    have hlu : (dumpFlush t (getEntry s r)).last_update = t := rfl
    have hnb : (dumpFlush (t + k) (dumpFlush t (getEntry s r))).num_bytes
        = (dumpFlush t (getEntry s r)).num_bytes := rfl
    refine ⟨?_, hnb⟩
    show ((dumpFlush t (getEntry s r)).total_byte_seconds
        + (dumpFlush t (getEntry s r)).num_bytes
          * ((t + k + 2^32 - (dumpFlush t (getEntry s r)).last_update) % 2^32)) % 2^64 = _
    rw [hlu]
    have h3 : (t + k + 2^32 - t) % 2^32 = k := by omega
    rw [h3]
    omega

set_option maxRecDepth 4000 in
theorem claim_C1_witness :
    (byteTotalChangeEntry 2 1 false false
        { zeroStats with num_bytes := 4, last_update := 1 }).total_byte_seconds
      = 0 + 4 * (2 - 1)
    ∧ (removalEntry 2 3 false false
        { zeroStats with num_bytes := 4, last_update := 1 }).last_update = 2
    ∧ (getEntry ((stats_prefix_dump (1 + 2) ((stats_prefix_dump 1 stats_prefix_init true).2)
          true).2) AccRef.wildcard).total_byte_seconds
      = (getEntry ((stats_prefix_dump 1 stats_prefix_init true).2)
          AccRef.wildcard).total_byte_seconds
        + (getEntry ((stats_prefix_dump 1 stats_prefix_init true).2)
            AccRef.wildcard).num_bytes * 2 :=
  ⟨(claim_C1.1 2 1 false false { zeroStats with num_bytes := 4, last_update := 1 }
      (by decide) (by decide) (by decide) (by decide)).1,
   (claim_C1.2.1 2 3 false false { zeroStats with num_bytes := 4, last_update := 1 }
      (by decide) (by decide) (by decide) (by decide)).2,
   (claim_C1.2.2 1 2 stats_prefix_init AccRef.wildcard (by decide) (by decide)
      (by decide)).1⟩

theorem findBody_table_length (hash : List Char → Nat) (s : StatsState) (p : List Char)
    (a1 a2 : Bool) (s' : StatsState) (ro : Option AccRef)
    (h : findBody hash s p a1 a2 = (s', ro)) : s'.table.length = s.table.length := by
  cases ro with
  | none => rw [findBody_none hash s p a1 a2 s' h]
  | some r =>
    rcases findBody_cases hash s p a1 a2 s' r h with ⟨i, _, hs, _⟩ | ⟨_, _, _, hs, _⟩
    · rw [hs]
    · rw [hs]
      exact List.length_set s.table _ _

/-- Claim C3: two keys that both contain the delimiter and agree on the
bytes before its first occurrence resolve to the same accumulator (the
second find returns the very same reference and leaves the state
untouched), while matching requires exact length equality of the stored
prefix, so a key whose shorter prefix is a strict byte-prefix of a longer
one resolves to an accumulator storing a different prefix, hence a
distinct accumulator. -/
theorem claim_C3 :
    (∀ (hash : List Char → Nat) (delim : Char) (s : StatsState) (k1 k2 : List Char)
       (a1 a2 : Bool) (s1 : StatsState) (r : AccRef),
      s.table.length = PREFIX_HASH_SIZE →
      delim ∈ k1 → delim ∈ k2 → prefixOf delim k1 = prefixOf delim k2 →
      stats_prefix_find hash delim s k1 a1 a2 = (s1, some r) →
      stats_prefix_find hash delim s1 k2 a1 a2 = (s1, some r))
    ∧ (∀ (hash : List Char → Nat) (delim : Char) (s : StatsState) (k1 k2 : List Char)
       (a1 a2 : Bool) (s1 s2 : StatsState) (r1 r2 : AccRef),
      s.table.length = PREFIX_HASH_SIZE →
      delim ∈ k1 → delim ∈ k2 →
      prefixOf delim k1 = (prefixOf delim k2).take (prefixOf delim k1).length →
      (prefixOf delim k1).length < (prefixOf delim k2).length →
      stats_prefix_find hash delim s k1 a1 a2 = (s1, some r1) →
      stats_prefix_find hash delim s1 k2 a1 a2 = (s2, some r2) →
      (getEntry s1 r1).pfx = prefixOf delim k1
        ∧ (getEntry s2 r2).pfx = prefixOf delim k2
        ∧ getEntry s1 r1 ≠ getEntry s2 r2) := by
  constructor
  · intro hash delim s k1 k2 a1 a2 s1 r hlen h1 h2 hp heq
    have hlt1 := findDelim_lt_of_mem delim k1 h1
    have hlt2 := findDelim_lt_of_mem delim k2 h2
    rw [find_eq_body hash delim s k1 a1 a2 hlt1] at heq
    rw [find_eq_body hash delim s1 k2 a1 a2 hlt2, ← hp]
    exact findBody_idem hash s (prefixOf delim k1) a1 a2 s1 r hlen heq
  · intro hash delim s k1 k2 a1 a2 s1 s2 r1 r2 hlen h1 h2 hpfx hlen12 hf1 hf2
    have hlt1 := findDelim_lt_of_mem delim k1 h1
    have hlt2 := findDelim_lt_of_mem delim k2 h2
    rw [find_eq_body hash delim s k1 a1 a2 hlt1] at hf1
    rw [find_eq_body hash delim s1 k2 a1 a2 hlt2] at hf2
    have hlen1 : s1.table.length = PREFIX_HASH_SIZE :=
      (findBody_table_length hash s _ a1 a2 s1 _ hf1).trans hlen
    have e1 := findBody_getEntry hash s _ a1 a2 s1 r1 hlen hf1
    have e2 := findBody_getEntry hash s1 _ a1 a2 s2 r2 hlen1 hf2
    have hpne : prefixOf delim k1 ≠ prefixOf delim k2 := by
      intro hc
      rw [hc] at hlen12
      omega
    refine ⟨e1.1, e2.1, ?_⟩
    intro hc
    exact hpne ((e1.1.symm.trans (congrArg PREFIX_STATS.pfx hc)).trans e2.1)

/-- Concrete registry holding one accumulator for prefix ab in bucket 0
(hash constantly 0), as created by a first find. -/
def wsStateAB : StatsState :=
  { table := (List.replicate 256 ([] : List PREFIX_STATS)).set 0
      [{ zeroStats with pfx := "ab".data }],
    num_prefixes := 1, total_prefix_size := 2, wildcard := zeroStats }

/-- wsStateAB after a find for the longer prefix abc created a second
accumulator at the head of bucket 0. -/
def wsStateABC : StatsState :=
  { table := (List.replicate 256 ([] : List PREFIX_STATS)).set 0
      [{ zeroStats with pfx := "abc".data }, { zeroStats with pfx := "ab".data }],
    num_prefixes := 2, total_prefix_size := 5, wildcard := zeroStats }

set_option maxRecDepth 8000 in
theorem claim_C3_witness :
    stats_prefix_find (fun _ => 0) ':' wsStateAB "ab:v".data true true
      = (wsStateAB, some (AccRef.entry 0 0))
    ∧ getEntry wsStateAB (AccRef.entry 0 0) ≠ getEntry wsStateABC (AccRef.entry 0 0) :=
  ⟨claim_C3.1 (fun _ => 0) ':' stats_prefix_init "ab:u".data "ab:v".data true true
      wsStateAB (AccRef.entry 0 0)
      (by decide) (by decide) (by decide) (by decide) (by decide),
   (claim_C3.2 (fun _ => 0) ':' stats_prefix_init "ab:u".data "abc:v".data true true
      wsStateAB wsStateABC (AccRef.entry 0 0) (AccRef.entry 0 0)
      (by decide) (by decide) (by decide) (by decide) (by decide) (by decide)
      (by decide)).2.2⟩

/-- Claim C9: num_prefixes always counts the accumulators chained across
all buckets and total_prefix_size always sums their stored prefix lengths:
every record operation preserves the invariant, a successful find either
leaves the state untouched or bumps both counters by exactly one prefix
(its length), a failed allocation leaves the state unchanged, the dump
preserves the invariant, and clear resets both counters to zero together
with the emptied table. -/
theorem claim_C9 :
    (∀ (hash : List Char → Nat) (delim : Char) (s : StatsState) (key : List Char)
       (nbytes : Nat) (is_hit : Bool) (a1 a2 : Bool), RegistryInv s →
      RegistryInv (stats_prefix_record_get hash delim s key nbytes is_hit a1 a2))
    ∧ (∀ (hash : List Char → Nat) (delim : Char) (s : StatsState) (key : List Char)
       (a1 a2 : Bool), RegistryInv s →
      RegistryInv (stats_prefix_record_delete hash delim s key a1 a2))
    ∧ (∀ (hash : List Char → Nat) (delim : Char) (s : StatsState) (key : List Char)
       (a1 a2 : Bool), RegistryInv s →
      RegistryInv (stats_prefix_record_set hash delim s key a1 a2))
    ∧ (∀ (hash : List Char → Nat) (delim : Char) (now : Nat) (s : StatsState)
       (key : List Char) (bytes : Int) (incr ov : Bool) (a1 a2 : Bool), RegistryInv s →
      RegistryInv (stats_prefix_record_byte_total_change hash delim now s key bytes incr ov a1 a2))
    ∧ (∀ (hash : List Char → Nat) (delim : Char) (now : Nat) (s : StatsState)
       (key : List Char) (bytes t : Nat) (ev ex : Bool) (a1 a2 : Bool), RegistryInv s →
      RegistryInv (stats_prefix_record_removal hash delim now s key bytes t ev ex a1 a2))
    ∧ (∀ (now : Nat) (s : StatsState) (allocOk : Bool), RegistryInv s →
      RegistryInv ((stats_prefix_dump now s allocOk).2))
    ∧ (∀ (hash : List Char → Nat) (delim : Char) (s : StatsState) (key : List Char)
       (a1 a2 : Bool) (s1 : StatsState) (r : AccRef), RegistryInv s →
      stats_prefix_find hash delim s key a1 a2 = (s1, some r) →
      (s1 = s ∨ (s1.num_prefixes = s.num_prefixes + 1 ∧
                 s1.total_prefix_size = s.total_prefix_size + (prefixOf delim key).length)))
    ∧ (∀ (hash : List Char → Nat) (delim : Char) (s : StatsState) (key : List Char)
       (a1 a2 : Bool) (s1 : StatsState),
      stats_prefix_find hash delim s key a1 a2 = (s1, none) → s1 = s)
    ∧ (∀ s : StatsState, RegistryInv (stats_prefix_clear s)
        ∧ (stats_prefix_clear s).num_prefixes = 0
        ∧ (stats_prefix_clear s).total_prefix_size = 0
        ∧ tableCount (stats_prefix_clear s) = 0) := by
  refine ⟨?_, ?_, ?_, ?_, ?_, ?_, ?_, ?_, ?_⟩
  · intro hash delim s key nbytes is_hit a1 a2 hinv
    unfold stats_prefix_record_get
    exact RegistryInv_update hash delim s key a1 a2 _ (recordGetEntry_pfx nbytes is_hit) hinv
  · intro hash delim s key a1 a2 hinv
    unfold stats_prefix_record_delete
    exact RegistryInv_update hash delim s key a1 a2 _ recordDeleteEntry_pfx hinv
  · intro hash delim s key a1 a2 hinv
    unfold stats_prefix_record_set
    exact RegistryInv_update hash delim s key a1 a2 _ recordSetEntry_pfx hinv
  · intro hash delim now s key bytes incr ov a1 a2 hinv
    unfold stats_prefix_record_byte_total_change
    exact RegistryInv_update hash delim s key a1 a2 _
      (byteTotalChangeEntry_pfx now bytes incr ov) hinv
  · intro hash delim now s key bytes t ev ex a1 a2 hinv
    unfold stats_prefix_record_removal
    exact RegistryInv_update hash delim s key a1 a2 _
      (removalEntry_pfx now bytes ev ex) hinv
  · intro now s allocOk hinv
    cases allocOk with
    | false => exact hinv
    | true =>
      rw [dump_snd]
      exact RegistryInv_flushedState now s hinv
  · intro hash delim s key a1 a2 s1 r hinv hfind
    exact (find_some_inv hash delim s key a1 a2 s1 r hfind hinv).2.2
  · intro hash delim s key a1 a2 s1 hfind
    exact find_none hash delim s key a1 a2 s1 hfind
  · intro s
    refine ⟨?_, rfl, rfl, ?_⟩
    · show RegistryInv stats_prefix_init
      set_option maxRecDepth 4000 in decide
    · show tableCount stats_prefix_init = 0
      set_option maxRecDepth 4000 in decide

set_option maxRecDepth 8000 in
theorem claim_C9_witness :
    RegistryInv (stats_prefix_record_get (fun _ => 0) ':' stats_prefix_init
      "abc:1".data 4 true true true)
    ∧ (wsStateAB = stats_prefix_init
      ∨ (wsStateAB.num_prefixes = stats_prefix_init.num_prefixes + 1
        ∧ wsStateAB.total_prefix_size
            = stats_prefix_init.total_prefix_size + (prefixOf ':' "ab:u".data).length)) :=
  ⟨claim_C9.1 (fun _ => 0) ':' stats_prefix_init "abc:1".data 4 true true true (by decide),
   claim_C9.2.2.2.2.2.2.1 (fun _ => 0) ':' stats_prefix_init "ab:u".data true true
     wsStateAB (AccRef.entry 0 0) (by decide) (by decide)⟩

theorem natDecimal_le_20 (n : Nat) (h : n < 2^64) : (natDecimal n).length ≤ 20 :=
  natDecimal_len n 20 (lt_of_lt_of_le h (by norm_num)) (by norm_num)

theorem natDecimal_le_10 (n : Nat) (h : n < 2^32) : (natDecimal n).length ≤ 10 :=
  natDecimal_len n 10 (lt_of_lt_of_le h (by norm_num)) (by norm_num)

theorem entryBounded_dumpFlush (now : Nat) (p : PREFIX_STATS) (h : entryBounded p) :
    entryBounded (dumpFlush now p) := by
  obtain ⟨h1, h2, h3, h4, h5, h6, h7, h8, h9, h10, _⟩ := h
  exact ⟨h1, h2, h3, h4, h5, h6, h7, h8, h9, h10,
    Nat.mod_lt _ (by norm_num)⟩

theorem dumpLine_len (name : List Char) (p : PREFIX_STATS) (hb : entryBounded p) :
    (dumpLine name p).length ≤ 288 + name.length := by
  obtain ⟨h1, h2, h3, h4, h5, h6, h7, h8, h9, h10, h11⟩ := hb
  have d1 := natDecimal_le_10 p.num_items h1
  have d2 := natDecimal_le_20 p.num_gets h2
  have d3 := natDecimal_le_20 p.num_hits h3
  have d4 := natDecimal_le_20 p.num_sets h4
  have d5 := natDecimal_le_20 p.num_deletes h5
  have d6 := natDecimal_le_20 p.num_evicts h6
  have d7 := natDecimal_le_20 p.num_overwrites h7
  have d8 := natDecimal_le_20 p.num_expires h8
  have d9 := natDecimal_le_20 p.num_bytes h9
  have d10 := natDecimal_le_20 p.bytes_txed h10
  have d11 := natDecimal_le_20 p.total_byte_seconds h11
  unfold dumpLine
  simp only [String.length_append, strMk_length]
  simp only [show ("PREFIX " : String).length = 7 from rfl,
    show (" item " : String).length = 6 from rfl,
    show (" get " : String).length = 5 from rfl,
    show (" hit " : String).length = 5 from rfl,
    show (" set " : String).length = 5 from rfl,
    show (" del " : String).length = 5 from rfl,
    show (" evict " : String).length = 7 from rfl,
    show (" ov " : String).length = 4 from rfl,
    show (" exp " : String).length = 5 from rfl,
    show (" bytes " : String).length = 7 from rfl,
    show (" txed " : String).length = 6 from rfl,
    show (" byte-seconds " : String).length = 14 from rfl,
    show ("\r\n" : String).length = 2 from rfl]
  omega

theorem sum_map_add_fun {α : Type} (f g : α → Nat) :
    ∀ l : List α, (l.map (fun x => f x + g x)).sum = (l.map f).sum + (l.map g).sum := by
  intro l
  induction l with
  | nil => rfl
  | cons c rest ih =>
    simp only [List.map_cons, List.sum_cons, ih]
    omega

theorem sum_map_mul_const {α : Type} (c : Nat) (f : α → Nat) :
    ∀ l : List α, (l.map (fun x => c * f x)).sum = c * (l.map f).sum := by
  intro l
  induction l with
  | nil => simp
  | cons x rest ih =>
    simp only [List.map_cons, List.sum_cons, ih]
    ring

theorem sum_map_const {α : Type} (c : Nat) :
    ∀ l : List α, (l.map (fun _ => c)).sum = c * l.length := by
  intro l
  induction l with
  | nil => rfl
  | cons x rest ih =>
    simp only [List.map_cons, List.sum_cons, ih, List.length_cons]
    ring

set_option maxHeartbeats 1000000 in
theorem chain_out_len (now : Nat) (chain : List PREFIX_STATS)
    (hbnd : ∀ p ∈ chain, entryBounded p) :
    (joinOut ((chain.map (dumpFlush now)).map (fun p => dumpLine p.pfx p))).length
      ≤ 288 * chain.length + (chain.map (fun p => p.pfx.length)).sum := by
  rw [joinOut_len, List.map_map, List.map_map]
  have hle : ((chain.map ((String.length ∘ fun p => dumpLine p.pfx p) ∘ dumpFlush now)).sum)
      ≤ (chain.map (fun p => 288 + p.pfx.length)).sum := by
    apply List.sum_le_sum
    intro p hp
    simp only [Function.comp]
    have hbd := dumpLine_len (dumpFlush now p).pfx (dumpFlush now p)
      (entryBounded_dumpFlush now p (hbnd p hp))
    rw [dumpFlush_pfx] at hbd
    exact hbd
  have heq : (chain.map (fun p => 288 + p.pfx.length)).sum
      = 288 * chain.length + (chain.map (fun p => p.pfx.length)).sum := by
    rw [sum_map_add_fun (fun _ => 288) (fun p => p.pfx.length) chain]
    rw [sum_map_const 288 chain]
  omega

/-- The full text produced by a successful stats_prefix_dump: one line per
chained accumulator in table then chain order, the wildcard line when its
get, set or delete counters are nonzero, then the terminator. -/
def dumpOut (now : Nat) (s : StatsState) : String :=
  joinOut ((s.table.map (fun chain => chain.map (dumpFlush now))).map
      (fun chain => joinOut (chain.map (fun p => dumpLine p.pfx p))))
    ++ (if (dumpFlush now s.wildcard).num_gets ≠ 0 ∨ (dumpFlush now s.wildcard).num_sets ≠ 0
          ∨ (dumpFlush now s.wildcard).num_deletes ≠ 0
        then dumpLine ("*wildcard*".data) (dumpFlush now s.wildcard)
        else "")
    ++ "END\r\n"

theorem dump_fst (now : Nat) (s : StatsState) :
    (stats_prefix_dump now s true).1 = some (dumpOut now s, (dumpOut now s).length) := rfl

set_option maxHeartbeats 1000000 in
theorem dumpOut_len (now : Nat) (s : StatsState)
    (hinv : RegistryInv s) (hbnd : boundedState s) :
    (dumpOut now s).length ≤ dumpSize s := by
  obtain ⟨hlen, hcnt, hsz⟩ := hinv
  obtain ⟨hchains, hw⟩ := hbnd
  unfold dumpOut
  rw [String.length_append, String.length_append]
  have hbody : (joinOut ((s.table.map (fun chain => chain.map (dumpFlush now))).map
      (fun chain => joinOut (chain.map (fun p => dumpLine p.pfx p))))).length
      ≤ 288 * tableCount s + tableSize s := by
    rw [joinOut_len, List.map_map, List.map_map]
    have hle : ((s.table.map ((String.length
          ∘ fun chain => joinOut (chain.map (fun p => dumpLine p.pfx p)))
          ∘ fun chain => chain.map (dumpFlush now))).sum)
        ≤ (s.table.map (fun chain => 288 * chain.length
            + (chain.map (fun p => p.pfx.length)).sum)).sum := by
      apply List.sum_le_sum
      intro chain hchain
      simp only [Function.comp]
      exact chain_out_len now chain (hchains chain hchain)
    have heq : (s.table.map (fun chain => 288 * chain.length
          + (chain.map (fun p => p.pfx.length)).sum)).sum
        = 288 * tableCount s + tableSize s := by
      rw [sum_map_add_fun (fun chain => 288 * chain.length)
        (fun chain => (chain.map (fun p => p.pfx.length)).sum) s.table]
      rw [sum_map_mul_const 288 List.length s.table]
      rfl
    omega
  have hwl : (if (dumpFlush now s.wildcard).num_gets ≠ 0
        ∨ (dumpFlush now s.wildcard).num_sets ≠ 0
        ∨ (dumpFlush now s.wildcard).num_deletes ≠ 0
      then dumpLine ("*wildcard*".data) (dumpFlush now s.wildcard)
      else "").length ≤ 298 := by
    split
    · have hbd := dumpLine_len ("*wildcard*".data) (dumpFlush now s.wildcard)
        (entryBounded_dumpFlush now s.wildcard hw)
      rw [show ("*wildcard*".data).length = 10 from rfl] at hbd
      omega
    · show (0 : Nat) ≤ 298
      omega
  have hend : ("END\r\n" : String).length = 5 := rfl
  have hds : dumpSize s = s.total_prefix_size + (s.num_prefixes + 1) * 300 + 17 := by
    unfold dumpSize format_len
    rw [show STATS_PREFIX_DUMP_FORMAT.length = 124 from rfl]
  omega

/-- Claim C2: for every well-formed bounded registry state, the buffer
size the dump computes before writing (total stored prefix bytes plus,
per accumulator and one more for the wildcard line and terminator, the
format template length with all eleven numeric conversions widened to 20
digits) bounds the bytes actually written, and the returned length is
exactly the number of bytes written. -/
theorem claim_C2 (now : Nat) (s : StatsState) (out : String) (len : Nat) (s1 : StatsState)
    (hinv : RegistryInv s) (hbnd : boundedState s)
    (h : stats_prefix_dump now s true = (some (out, len), s1)) :
    out.length ≤ dumpSize s ∧ len = out.length := by
  have h1 : (stats_prefix_dump now s true).1 = some (out, len) := by rw [h]
  rw [dump_fst now s] at h1
  injection h1 with h2
  have ho : dumpOut now s = out := congrArg Prod.fst h2
  have hl : (dumpOut now s).length = len := congrArg Prod.snd h2
  constructor
  · rw [← ho]
    exact dumpOut_len now s hinv hbnd
  · rw [← hl, ← ho]

set_option maxRecDepth 4000 in
theorem claim_C2_witness :
    RegistryInv stats_prefix_init ∧ boundedState stats_prefix_init
    ∧ ("END\r\n" : String).length ≤ dumpSize stats_prefix_init :=
  ⟨by decide, by decide,
   (claim_C2 3 stats_prefix_init "END\r\n" 5
      ⟨List.replicate 256 [], 0, 0, { zeroStats with last_update := 3 }⟩
      (by decide) (by decide) (by decide)).1⟩

theorem find_valid (hash : List Char → Nat) (delim : Char) (s : StatsState)
    (key : List Char) (a1 a2 : Bool) (s1 : StatsState) (r : AccRef)
    (hlen : s.table.length = PREFIX_HASH_SIZE)
    (h : stats_prefix_find hash delim s key a1 a2 = (s1, some r)) : validRef s1 r := by
  by_cases hd : findDelim delim key = key.length
  · rw [find_eq_wildcard hash delim s key a1 a2 hd] at h
    injection h with h1 h2
    injection h2 with h2
    rw [← h2]
    trivial
  · have hlt : findDelim delim key < key.length :=
      Nat.lt_of_le_of_ne (findDelim_le delim key) hd
    rw [find_eq_body hash delim s key a1 a2 hlt] at h
    exact (findBody_getEntry hash s _ a1 a2 s1 r hlen h).2

theorem setEntry_head (s : StatsState) (b : Nat) (f : PREFIX_STATS → PREFIX_STATS)
    (e : PREFIX_STATS) (chain : List PREFIX_STATS)
    (hchain : s.table.getD b [] = e :: chain) :
    setEntry s (AccRef.entry b 0) f = { s with table := s.table.set b (f e :: chain) } := by
  unfold setEntry
  dsimp only
  rw [hchain]
  rfl

/-- A registry whose only accumulator is e, alone in bucket b, with a
zeroed wildcard. -/
def singleEntryState (b : Nat) (e : PREFIX_STATS) (np tps : Nat) : StatsState :=
  { table := (List.replicate PREFIX_HASH_SIZE ([] : List PREFIX_STATS)).set b [e],
    num_prefixes := np, total_prefix_size := tps, wildcard := zeroStats }

theorem dumpOut_single (now : Nat) (b : Nat) (e : PREFIX_STATS) (np tps : Nat)
    (hb : b < PREFIX_HASH_SIZE) :
    dumpOut now (singleEntryState b e np tps)
      = dumpLine (dumpFlush now e).pfx (dumpFlush now e) ++ "END\r\n" := by
  unfold dumpOut singleEntryState
  dsimp only
  rw [List.map_map]
  rw [joinOut_map_set_replicate PREFIX_HASH_SIZE b [e] _ hb rfl]
  have hwc : ¬((dumpFlush now zeroStats).num_gets ≠ 0
      ∨ (dumpFlush now zeroStats).num_sets ≠ 0
      ∨ (dumpFlush now zeroStats).num_deletes ≠ 0) := by
    simp [dumpFlush, zeroStats]
  rw [if_neg hwc]
  rw [strAppend_empty]
  simp only [Function.comp, List.map_cons, List.map_nil, joinOut]
  rw [strAppend_empty]

theorem singleEntryState_chain (b : Nat) (e : PREFIX_STATS) (np tps : Nat)
    (hb : b < PREFIX_HASH_SIZE) :
    (singleEntryState b e np tps).table.getD b [] = [e] := by
  unfold singleEntryState
  exact getD_set_self [] _ _ _ (by simpa using hb)

theorem record_set_abc (hash : List Char → Nat) :
    stats_prefix_record_set hash ':' stats_prefix_init "abc:123".data true true
      = singleEntryState (hash "abc".data % PREFIX_HASH_SIZE)
          { zeroStats with pfx := "abc".data, num_sets := 1 } 1 3 := by
  have hb256 : hash "abc".data % PREFIX_HASH_SIZE < PREFIX_HASH_SIZE :=
    Nat.mod_lt _ (by norm_num [PREFIX_HASH_SIZE])
  have hcs : createdState hash stats_prefix_init "abc".data
      = singleEntryState (hash "abc".data % PREFIX_HASH_SIZE)
          { zeroStats with pfx := "abc".data } 1 3 := by
    unfold createdState singleEntryState
    rw [show stats_prefix_init.table.getD (hash "abc".data % PREFIX_HASH_SIZE) []
          = ([] : List PREFIX_STATS) from getD_replicate PREFIX_HASH_SIZE _ []]
    rfl
  have hidx : chainFindIdx "abc".data
      (stats_prefix_init.table.getD (hash "abc".data % PREFIX_HASH_SIZE) []) 0 = none := by
    rw [show stats_prefix_init.table.getD (hash "abc".data % PREFIX_HASH_SIZE) []
          = ([] : List PREFIX_STATS) from getD_replicate PREFIX_HASH_SIZE _ []]
    rfl
  have hfind : stats_prefix_find hash ':' stats_prefix_init "abc:123".data true true
      = (singleEntryState (hash "abc".data % PREFIX_HASH_SIZE)
          { zeroStats with pfx := "abc".data } 1 3,
         some (AccRef.entry (hash "abc".data % PREFIX_HASH_SIZE) 0)) := by
    rw [find_eq_body hash ':' stats_prefix_init "abc:123".data true true (by decide)]
    rw [show prefixOf ':' "abc:123".data = "abc".data from by decide]
    rw [findBody_eq_create hash stats_prefix_init "abc".data hidx]
    rw [hcs]
  unfold stats_prefix_record_set
  rw [hfind]
  dsimp only
  rw [setEntry_head _ _ recordSetEntry { zeroStats with pfx := "abc".data } []
      (singleEntryState_chain (hash "abc".data % PREFIX_HASH_SIZE)
        { zeroStats with pfx := "abc".data } 1 3 hb256)]
  unfold singleEntryState
  dsimp only
  rw [List.set_set]
  rfl

/-- Claim C5: from an empty registry, record_set of key abc:123 followed
by a dump produces exactly one line for prefix abc with all counters zero
except set = 1, then the terminator, 97 bytes in total; and in general
record_set only bumps the sets counter of the resolved accumulator, never
its item count or byte total. -/
theorem claim_C5 :
    (∀ (hash : List Char → Nat) (now : Nat),
      (stats_prefix_dump now (stats_prefix_record_set hash ':' stats_prefix_init
          "abc:123".data true true) true).1
        = some ("PREFIX abc item 0 get 0 hit 0 set 1 del 0 evict 0 ov 0 exp 0 bytes 0 txed 0 byte-seconds 0\r\nEND\r\n", 97))
    ∧ (∀ (hash : List Char → Nat) (delim : Char) (s : StatsState) (key : List Char)
        (a1 a2 : Bool) (s1 : StatsState) (r : AccRef),
      s.table.length = PREFIX_HASH_SIZE →
      stats_prefix_find hash delim s key a1 a2 = (s1, some r) →
      (getEntry (stats_prefix_record_set hash delim s key a1 a2) r).num_items
          = (getEntry s1 r).num_items
      ∧ (getEntry (stats_prefix_record_set hash delim s key a1 a2) r).num_bytes
          = (getEntry s1 r).num_bytes
      ∧ (getEntry (stats_prefix_record_set hash delim s key a1 a2) r).num_sets
          = ((getEntry s1 r).num_sets + 1) % 2^64) := by
  constructor
  · intro hash now
    rw [record_set_abc hash, dump_fst]
    rw [dumpOut_single now (hash "abc".data % PREFIX_HASH_SIZE)
        { zeroStats with pfx := "abc".data, num_sets := 1 } 1 3
        (Nat.mod_lt _ (by norm_num [PREFIX_HASH_SIZE]))]
    have he : dumpFlush now { zeroStats with pfx := "abc".data, num_sets := 1 }
        = { zeroStats with pfx := "abc".data, num_sets := 1, last_update := now } := by
      unfold dumpFlush
      simp [zeroStats]
    rw [he]
    have hline : dumpLine ({ zeroStats with pfx := "abc".data, num_sets := 1, last_update := now } : PREFIX_STATS).pfx { zeroStats with pfx := "abc".data, num_sets := 1, last_update := now } = "PREFIX abc item 0 get 0 hit 0 set 1 del 0 evict 0 ov 0 exp 0 bytes 0 txed 0 byte-seconds 0\r\n" := by
      unfold dumpLine
      dsimp only
      decide
    rw [hline]
    decide
  · intro hash delim s key a1 a2 s1 r hlen hfind
    have hv := find_valid hash delim s key a1 a2 s1 r hlen hfind
    unfold stats_prefix_record_set
    rw [hfind]
    dsimp only
    rw [getEntry_setEntry s1 r recordSetEntry hv]
    exact ⟨rfl, rfl, rfl⟩

set_option maxRecDepth 8000 in
theorem claim_C5_witness :
    (getEntry (stats_prefix_record_set (fun _ => 0) ':' wsStateAB "ab:z".data true true)
        (AccRef.entry 0 0)).num_sets
      = ((getEntry wsStateAB (AccRef.entry 0 0)).num_sets + 1) % 2^64
    ∧ (getEntry (stats_prefix_record_set (fun _ => 0) ':' wsStateAB "ab:z".data true true)
        (AccRef.entry 0 0)).num_items = (getEntry wsStateAB (AccRef.entry 0 0)).num_items :=
  ⟨(claim_C5.2 (fun _ => 0) ':' wsStateAB "ab:z".data true true wsStateAB (AccRef.entry 0 0)
      (by decide) (by decide)).2.2,
   (claim_C5.2 (fun _ => 0) ':' wsStateAB "ab:z".data true true wsStateAB (AccRef.entry 0 0)
      (by decide) (by decide)).1⟩
